import Mathlib

/-!
# Verification of the python-redux store core

A shallow embedding of `redux/_store_core.pyx` (the Cython store core of
python-redux).  States `S`, actions `A` and events `E` are type parameters;
listeners, event handlers and autorun subscribers are identified by natural
numbers.  Exceptions raised by the reducer are modelled with `Except Unit`;
observable effects (listener notifications, worker-queue insertions, the
spawning of the shutdown thread) are recorded in logs inside the store state.
-/

namespace Redux

/-- A dispatchable item: either an action (`BaseAction` subclass) or an
event (`BaseEvent` subclass).  `Store._dispatch_list` tests the two cases
with `isinstance`. -/
inductive Item (A E : Type) where
  | action : A → Item A E
  | event : E → Item A E
deriving DecidableEq

/-- Result of a reducer call: either a plain new state, or a
`CompleteReducerResult` carrying the new state plus extra actions and extra
events (`result.actions` / `result.events`, with `None` modelled by `[]`). -/
inductive ReducerResult (S A E : Type) where
  | plain : S → ReducerResult S A E
  | complete : S → List A → List E → ReducerResult S A E
deriving DecidableEq

/-- The new state carried by a reducer result. -/
def ReducerResult.newState {S A E : Type} : ReducerResult S A E → S
  | .plain s => s
  | .complete s _ _ => s

/-- The extra actions carried by a reducer result (empty for plain results). -/
def ReducerResult.extraActions {S A E : Type} : ReducerResult S A E → List A
  | .plain _ => []
  | .complete _ acts _ => acts

/-- The extra events carried by a reducer result (empty for plain results). -/
def ReducerResult.extraEvents {S A E : Type} : ReducerResult S A E → List E
  | .plain _ => []
  | .complete _ _ evts => evts

/-- The immutable configuration of a store: the reducer (which may raise,
modelled by `Except Unit`), the two middleware chains, and the recognisers
for the built-in `FinishAction` / `FinishEvent` variants.  `tagOf` gives the
variant tag (`type(event)`) used as key of the event-handler registry. -/
structure Config (S A E : Type) where
  reducer : Option S → A → Except Unit (ReducerResult S A E)
  actionMiddlewares : List (A → Option A)
  eventMiddlewares : List (E → Option E)
  isFinishAction : A → Bool
  isFinishEvent : E → Bool
  finishEvent : E
  tagOf : E → Nat

/-- The mutable part of a `Store`:
* `state` — `_state`, `None` before the first reducer run;
* `actions`, `events` — the two FIFO queues `_actions` and `_events`;
* `listeners` — the ids in `_listeners`;
* `handlers` — the `(variant tag, handler id)` pairs of `_event_handlers`;
* `listenerLog` — one `(listener id, state)` entry per listener invocation
  performed by `_call_listeners`, in invocation order;
* `workerQueue` — the `(handler id, event)` pairs put on
  `_event_handlers_queue`;
* `finishTriggered` — how many times `_handle_finish_event` spawned the
  shutdown thread. -/
structure StoreState (S A E : Type) where
  state : Option S
  actions : List A
  events : List E
  listeners : List Nat
  handlers : List (Nat × Nat)
  listenerLog : List (Nat × S)
  workerQueue : List (Nat × E)
  finishTriggered : Nat
deriving DecidableEq

/-- Walk an ordered middleware chain over one item: each stage may replace
the item or return `None` (drop), which short-circuits.  This is the
`for`/`break` loop of `Store._dispatch_list`. -/
def applyMiddlewares {α : Type} : List (α → Option α) → α → Option α
  | [], x => some x
  | m :: rest, x =>
    match m x with
    | none => none
    | some y => applyMiddlewares rest y

/-- `Store._dispatch_list` without its tail call to `run`: each action is
passed through the action middleware chain and, if not dropped, appended to
the action queue; each event likewise through the event middlewares onto the
event queue.  (The tail `run()` is modelled separately: it fires only when no
drain is in progress, see `dispatchItems`.) -/
def dispatchList {S A E : Type} (cfg : Config S A E) :
    List (Item A E) → StoreState S A E → StoreState S A E
  | [], st => st
  | .action a :: rest, st =>
    match applyMiddlewares cfg.actionMiddlewares a with
    | none => dispatchList cfg rest st
    | some a₂ => dispatchList cfg rest { st with actions := st.actions ++ [a₂] }
  | .event e :: rest, st =>
    match applyMiddlewares cfg.eventMiddlewares e with
    | none => dispatchList cfg rest st
    | some e₂ => dispatchList cfg rest { st with events := st.events ++ [e₂] }

/-- `Store._call_listeners`: every currently subscribed listener is invoked
with the given state; the invocations are recorded in `listenerLog`. -/
def callListeners {S A E : Type} (st : StoreState S A E) (s : S) : StoreState S A E :=
  { st with listenerLog := st.listenerLog ++ st.listeners.map (fun i => (i, s)) }

/-- The body of the `while` loop of `Store._run_actions` after the reducer
returned `r` for action `a` (with `a` already popped): store the new state,
notify listeners, dispatch the composite's extra actions and extra events,
and enqueue a `FinishEvent` if the action was a `FinishAction`. -/
def stepOk {S A E : Type} (cfg : Config S A E) (a : A) (r : ReducerResult S A E)
    (st : StoreState S A E) : StoreState S A E :=
  let st₁ :=
    match r with
    | .plain s => callListeners { st with state := some s } s
    | .complete s acts evts =>
      dispatchList cfg (evts.map .event)
        (dispatchList cfg (acts.map .action)
          (callListeners { st with state := some s } s))
  if cfg.isFinishAction a then dispatchList cfg [.event cfg.finishEvent] st₁ else st₁

/-- Outcome of a (possibly failing) drain: normal completion, an exception
propagating out with the store left in the given state, or fuel exhaustion
(the Python loop has no fuel; `outOfFuel` only marks insufficient fuel of
the model). -/
inductive DrainResult (S A E : Type) where
  | ok : StoreState S A E → DrainResult S A E
  | err : StoreState S A E → DrainResult S A E
  | outOfFuel : DrainResult S A E
deriving DecidableEq

/-- `Store._run_actions`: pop the head of the action queue, apply the
reducer, process the result with `stepOk`, repeat while actions remain.  A
reducer exception aborts the loop with the store in its current shape. -/
def runActions {S A E : Type} (cfg : Config S A E) :
    Nat → StoreState S A E → DrainResult S A E
  | 0, _ => .outOfFuel
  | fuel + 1, st =>
    match st.actions with
    | [] => .ok st
    | a :: rest =>
      match cfg.reducer st.state a with
      | .error _ => .err { st with actions := rest }
      | .ok r => runActions cfg fuel (stepOk cfg a r { st with actions := rest })

/-- One iteration of the `while` loop of `Store._run_event_handlers` for the
popped event `e`: a `FinishEvent` triggers `_handle_finish_event`, and the
event's variant tag is looked up in the registry, enqueueing a
`(handler, event)` pair on the worker queue for every registered handler of
that tag. -/
def stepEvent {S A E : Type} (cfg : Config S A E) (e : E)
    (st : StoreState S A E) : StoreState S A E :=
  let st₁ :=
    if cfg.isFinishEvent e then { st with finishTriggered := st.finishTriggered + 1 } else st
  { st₁ with
    workerQueue := st₁.workerQueue ++
      (st₁.handlers.filter (fun p => p.1 == cfg.tagOf e)).map (fun p => (p.2, e)) }

/-- The event-popping loop of `Store._run_event_handlers`, recursing over
the list of pending events (processing an event never enqueues an event). -/
def runEventsFrom {S A E : Type} (cfg : Config S A E) :
    List E → StoreState S A E → StoreState S A E
  | [], st => st
  | e :: rest, st => runEventsFrom cfg rest (stepEvent cfg e st)

/-- `Store._run_event_handlers`: drain the event queue through `stepEvent`. -/
def runEventHandlers {S A E : Type} (cfg : Config S A E)
    (st : StoreState S A E) : StoreState S A E :=
  runEventsFrom cfg st.events { st with events := [] }

/-- `Store.run`: under the `_is_running` lock, alternately drain the action
queue and the event queue until both are empty.  A reducer exception
propagates (the `with` block releases the lock and re-raises). -/
def runStore {S A E : Type} (cfg : Config S A E) :
    Nat → StoreState S A E → DrainResult S A E
  | 0, _ => .outOfFuel
  | fuel + 1, st =>
    if st.actions.isEmpty && st.events.isEmpty then .ok st
    else
      match (if st.actions.isEmpty then .ok st else runActions cfg fuel st) with
      | .err st₂ => .err st₂
      | .outOfFuel => .outOfFuel
      | .ok st₂ =>
        runStore cfg fuel (if st₂.events.isEmpty then st₂ else runEventHandlers cfg st₂)

/-- `Store.dispatch` restricted to its positional parameters (already
flattened to a list of items), in the configuration without a scheduler and
with no drain running: the items are enqueued by `_dispatch_list`, whose
tail then drives `run`. -/
def dispatchItems {S A E : Type} (cfg : Config S A E) (fuel : Nat)
    (items : List (Item A E)) (st : StoreState S A E) : DrainResult S A E :=
  runStore cfg fuel (dispatchList cfg items st)

/-- `Store.dispatch(*parameters, with_state=...)`: when `with_state` is
given, it is first invoked with the raw current state (`self._state`, which
may be `None`) and the items it returns are dispatched recursively; then the
positional parameters are dispatched. -/
def dispatch {S A E : Type} (cfg : Config S A E) (fuel : Nat)
    (withState : Option (Option S → List (Item A E)))
    (params : List (Item A E)) (st : StoreState S A E) : DrainResult S A E :=
  match withState with
  | none => dispatchItems cfg fuel params st
  | some f =>
    match dispatchItems cfg fuel (f st.state) st with
    | .ok st₂ => dispatchItems cfg fuel params st₂
    | r => r

/-- `Store._subscribe`: add a listener (Python adds `listener_ref` to the
`_listeners` set; ids model the refs, and re-adding an existing id is a
set-level no-op). -/
def subscribeListener {S A E : Type} (i : Nat) (st : StoreState S A E) : StoreState S A E :=
  if i ∈ st.listeners then st else { st with listeners := st.listeners ++ [i] }

/-- The `unsubscribe` closure returned by `Store._subscribe`:
`self._listeners.remove(listener_ref)` with `KeyError` swallowed — removing
an absent listener is a no-op. -/
def unsubscribeListener {S A E : Type} (i : Nat) (st : StoreState S A E) : StoreState S A E :=
  { st with listeners := st.listeners.filter (fun j => j ≠ i) }

/-- `Store.subscribe_event`: register a handler id under an event variant
tag (`self._event_handlers[event_type].add(handler_ref)`). -/
def subscribeEvent {S A E : Type} (tag h : Nat) (st : StoreState S A E) : StoreState S A E :=
  if (tag, h) ∈ st.handlers then st else { st with handlers := st.handlers ++ [(tag, h)] }

/-- The `unsubscribe` closure returned by `Store.subscribe_event`:
`self._event_handlers[event_type].discard(handler_ref)`, a no-op when the
pair is absent. -/
def unsubscribeEvent {S A E : Type} (tag h : Nat) (st : StoreState S A E) : StoreState S A E :=
  { st with handlers := st.handlers.filter (fun p => p ≠ (tag, h)) }

/-- The wrapper produced by the `Store.with_state` decorator: if `_state` is
`None` it raises `RuntimeError` (modelled `.error ()`) unless
`ignore_uninitialized_store` was set, in which case it returns `None`;
otherwise it applies the selector to the state and forwards to the wrapped
function. -/
def withStateWrapper {S V R : Type} (ignoreUninitialized : Bool)
    (selector : S → V) (func : V → R) (st : Option S) : Except Unit (Option R) :=
  match st with
  | none => if ignoreUninitialized then .ok none else .error ()
  | some s => .ok (some (func (selector s)))

/-- Modelled from the spec: the serializer collaborator behind
`Store.snapshot` is not part of the store core sources (`serialize_value`
delegates to `SerializationMixin`, an external collaborator).  Per the spec,
"`snapshot` is a pure function of the current state" and "delegates to the
serializer collaborator"; for the opaque states used here the serialized
projection is the state itself. -/
def snapshot {S A E : Type} (st : StoreState S A E) : Option S :=
  st.state

/-!
## The Autorun engine

`Autorun` from `_store_core.pyx`.  `S` is the store state, `V` the
selector/comparator output, `R` the payload of body results.  Python object
identity is modelled by pairing each body result with an object id
(`Nat × R`): two results are the *same object* iff their ids coincide, and
`==`-equality on payloads is independent of identity.  A selector or
comparator raising `AttributeError` is modelled by returning `none`; the
collected weak-referenced body is `AutorunCfg.func = none`; the `NOT_SET`
sentinel of `_last_selector_result` and the fresh `object()` sentinel of
`_last_comparator_result` are both modelled by `none`.
-/

/-- The immutable data of an `Autorun`: selector, optional comparator, the
(possibly collected) body, and the `memoization` option.  The body takes the
last selector result plus caller arguments and returns an identified value. -/
structure AutorunCfg (S V R : Type) where
  selector : S → Option V
  comparator : Option (S → Option V)
  func : Option (V → List Nat → Nat × R)
  memoization : Bool

/-- The mutable data of an `Autorun`: `_last_selector_result`,
`_last_comparator_result`, `_should_be_called`, `_latest_value`, the
subscriber ids of `_subscriptions`, and a log of subscriber notifications
performed by `inform_subscribers`. -/
structure AutorunState (V R : Type) where
  lastSelectorResult : Option V
  lastComparatorResult : Option V
  shouldBeCalled : Bool
  latestValue : Nat × R
  subscriptions : List Nat
  informLog : List (Nat × (Nat × R))
deriving DecidableEq

/-- `Autorun.check`: with an absent state or a selector/comparator
`AttributeError` it returns `False` leaving all fields untouched; otherwise
it ors `_should_be_called` with "comparator output differs from the
remembered one" and updates both remembered values. -/
def acheck {S V R : Type} [DecidableEq V] (cfg : AutorunCfg S V R) (state : Option S)
    (a : AutorunState V R) : Bool × AutorunState V R :=
  match state with
  | none => (false, a)
  | some s =>
    match cfg.selector s with
    | none => (false, a)
    | some selRes =>
      match (match cfg.comparator with | none => some selRes | some c => c s) with
      | none => (false, a)
      | some compRes =>
        let should := a.shouldBeCalled || decide (some compRes ≠ a.lastComparatorResult)
        (should,
          { a with
            shouldBeCalled := should
            lastSelectorResult := some selRes
            lastComparatorResult := some compRes })

/-- `Autorun.inform_subscribers`: every subscriber is called with
`_latest_value`; the calls are recorded in `informLog`. -/
def informSubscribers {V R : Type} (a : AutorunState V R) : AutorunState V R :=
  { a with informLog := a.informLog ++ a.subscriptions.map (fun i => (i, a.latestValue)) }

/-- `Autorun.call` for a synchronous body: if the body is alive and
`_last_selector_result` is set, run it, store the result in
`_latest_value`, and notify subscribers iff the new value `is not` the
previous one (object identity).  Returns the new autorun state and whether
the body ran. -/
def acall {S V R : Type} (cfg : AutorunCfg S V R) (args : List Nat)
    (a : AutorunState V R) : AutorunState V R × Bool :=
  match cfg.func with
  | none => (a, false)
  | some f =>
    match a.lastSelectorResult with
    | none => (a, false)
    | some selRes =>
      let value := f selRes args
      let a₂ := { a with latestValue := value }
      if value.1 ≠ a.latestValue.1 then (informSubscribers a₂, true) else (a₂, true)

/-- `Autorun.__call__`: run `check` on the store's current state, then run
the body iff `_should_be_called` is set, or arguments were supplied, or
memoization is disabled; return `_latest_value`.  The result is
`(new autorun state, returned value, whether the body ran)`. -/
def acallable {S V R : Type} [DecidableEq V] (cfg : AutorunCfg S V R) (state : Option S)
    (args : List Nat) (a : AutorunState V R) :
    AutorunState V R × (Nat × R) × Bool :=
  let a₁ := (acheck cfg state a).2
  if a₁.shouldBeCalled || !args.isEmpty || !cfg.memoization then
    let r := acall cfg args { a₁ with shouldBeCalled := false }
    (r.1, r.1.latestValue, r.2)
  else
    (a₁, a₁.latestValue, false)

/-- The comparator output for the current state, when it is computable:
`none` when the state is absent or the selector/comparator raises
`AttributeError`. -/
def comparatorNow {S V R : Type} (cfg : AutorunCfg S V R) (state : Option S) : Option V :=
  match state with
  | none => none
  | some s =>
    match cfg.selector s with
    | none => none
    | some selRes =>
      match cfg.comparator with
      | none => some selRes
      | some c => c s

/-- Whether the comparator output computed from the current state is
defined and differs from the last remembered comparator value. -/
def comparatorDiffers {S V R : Type} [DecidableEq V] (cfg : AutorunCfg S V R) (state : Option S)
    (a : AutorunState V R) : Bool :=
  match comparatorNow cfg state with
  | none => false
  | some v => decide (some v ≠ a.lastComparatorResult)

/-!
## Concrete instantiations

A small counter language used for the end-to-end scenarios of the spec and
for counterexamples/witnesses.
-/

/-- Concrete actions: `InitAction`, `Inc(n)`, a `Tick` whose reducer result
is composite, a `Dbl` doubling the count, a `Bad` action on which the
reducer raises, and `FinishAction`. -/
inductive CAct where
  | initA : CAct
  | inc : Nat → CAct
  | tick : CAct
  | dbl : CAct
  | bad : CAct
  | finA : CAct
deriving DecidableEq

/-- Concrete events: `Ping`, `CallApi`, `FinishEvent`. -/
inductive CEvt where
  | ping : CEvt
  | callApi : CEvt
  | finE : CEvt
deriving DecidableEq

/-- Variant tags of the concrete events (`type(event)` as registry key). -/
def ctag : CEvt → Nat
  | .ping => 0
  | .callApi => 1
  | .finE => 2

/-- The counter reducer of spec §8: `Init` yields count `0`, `Inc(n)` adds
`n`; additionally `Tick` returns the composite `(10, actions=[Inc 5])`,
`Dbl` doubles, and `Bad` raises. -/
def counterReducer : Option Nat → CAct → Except Unit (ReducerResult Nat CAct CEvt)
  | _, .initA => .ok (.plain 0)
  | s, .inc n => .ok (.plain (s.getD 0 + n))
  | _, .tick => .ok (.complete 10 [.inc 5] [])
  | s, .dbl => .ok (.plain (s.getD 0 * 2))
  | _, .bad => .error ()
  | s, .finA => .ok (.plain (s.getD 0))

/-- Counter store configuration with empty middleware chains. -/
def cfgCounter : Config Nat CAct CEvt where
  reducer := counterReducer
  actionMiddlewares := []
  eventMiddlewares := []
  isFinishAction := fun a => a == .finA
  isFinishEvent := fun e => e == .finE
  finishEvent := .finE
  tagOf := ctag

/-- The action middleware of scenario §8.4: drop `Inc(2)`, pass everything
else unchanged. -/
def dropInc2 : CAct → Option CAct :=
  fun a => if a == .inc 2 then none else some a

/-- Counter configuration whose action middleware chain drops `Inc(2)`. -/
def cfgDrop2 : Config Nat CAct CEvt :=
  { cfgCounter with actionMiddlewares := [dropInc2] }

/-- An action middleware dropping `Inc(5)` — the extra action produced by
the composite result of `Tick`. -/
def dropInc5 : CAct → Option CAct :=
  fun a => if a == .inc 5 then none else some a

/-- Counter configuration whose action middleware chain drops `Inc(5)`. -/
def cfgDrop5 : Config Nat CAct CEvt :=
  { cfgCounter with actionMiddlewares := [dropInc5] }

/-- An all-plain counter reducer: every action yields a plain state, no
composites, no exceptions. -/
def simpleReducer : Option Nat → CAct → Except Unit (ReducerResult Nat CAct CEvt)
  | _, .initA => .ok (.plain 0)
  | s, .inc n => .ok (.plain (s.getD 0 + n))
  | s, .tick => .ok (.plain (s.getD 0 + 1))
  | s, .dbl => .ok (.plain (s.getD 0 * 2))
  | s, .bad => .ok (.plain (s.getD 0))
  | s, .finA => .ok (.plain (s.getD 0))

/-- Counter configuration over the all-plain reducer. -/
def cfgSimple : Config Nat CAct CEvt :=
  { cfgCounter with reducer := simpleReducer }

/-- A freshly created store holding no state, with empty queues and
registries. -/
def emptyStore : StoreState Nat CAct CEvt where
  state := none
  actions := []
  events := []
  listeners := []
  handlers := []
  listenerLog := []
  workerQueue := []
  finishTriggered := 0

/-- The store of the counter scenario: one listener (id `0`) subscribed
before the auto-init action is drained. -/
def counterStart : StoreState Nat CAct CEvt :=
  subscribeListener 0 emptyStore

/-- Sequential composition of drains: feed the store produced by a
successful drain to the next dispatch; propagate failures. -/
def andThen {S A E : Type} (r : DrainResult S A E)
    (f : StoreState S A E → DrainResult S A E) : DrainResult S A E :=
  match r with
  | .ok st => f st
  | r => r

/-- The listener log of a successfully drained store. -/
def drainLog {S A E : Type} : DrainResult S A E → Option (List (Nat × S))
  | .ok st => some st.listenerLog
  | _ => none

/-- The snapshot of a successfully drained store. -/
def drainSnapshot {S A E : Type} : DrainResult S A E → Option (Option S)
  | .ok st => some (snapshot st)
  | _ => none

/-- Specification-level fold over a fixed list of actions: process each
action with the reducer and `stepOk`, ignoring the store's own action
queue.  It coincides with `runActions` when no reducer call fails or emits
extra actions. -/
def processActions {S A E : Type} (cfg : Config S A E) :
    List A → StoreState S A E → StoreState S A E
  | [], st => st
  | a :: l, st =>
    match cfg.reducer st.state a with
    | .error _ => st
    | .ok r => processActions cfg l (stepOk cfg a r st)

/-- Specification-level full drain for reducers without extra actions:
process all queued actions, then drain the accumulated events. -/
def drainedPlain {S A E : Type} (cfg : Config S A E)
    (st : StoreState S A E) : StoreState S A E :=
  runEventHandlers cfg (processActions cfg st.actions { st with actions := [] })

/-- `st'` extends `st` by drain work only: the listener and handler
registries are untouched, every listener-log entry is either old or
addressed to a registered listener, and every worker-queue entry is either
old or addressed to a handler registered for the event's tag. -/
def Extends {S A E : Type} (cfg : Config S A E)
    (st st' : StoreState S A E) : Prop :=
  st'.listeners = st.listeners ∧
  st'.handlers = st.handlers ∧
  (∀ p ∈ st'.listenerLog, p ∈ st.listenerLog ∨ p.1 ∈ st.listeners) ∧
  (∀ q ∈ st'.workerQueue, q ∈ st.workerQueue ∨ (cfg.tagOf q.2, q.1) ∈ st.handlers)

/-- A store about to process a `FinishEvent` while a handler (id `7`) is
registered for the `FinishEvent` variant tag. -/
def finStore : StoreState Nat CAct CEvt :=
  { emptyStore with handlers := [(ctag .finE, 7)], events := [.finE] }

/-- An event middleware dropping `Ping`, passing everything else. -/
def dropPingMw : CEvt → Option CEvt :=
  fun e => if e == .ping then none else some e

/-- Counter configuration that drops `Inc(2)` actions and `Ping` events. -/
def cfgDropBoth : Config Nat CAct CEvt :=
  { cfgCounter with actionMiddlewares := [dropInc2], eventMiddlewares := [dropPingMw] }

/-- A counter reducer whose `Tick` result is composite with the extra
action `Dbl`: used to separate batched from sequential dispatch. -/
def tickReducer : Option Nat → CAct → Except Unit (ReducerResult Nat CAct CEvt)
  | _, .initA => .ok (.plain 0)
  | s, .inc n => .ok (.plain (s.getD 0 + n))
  | _, .tick => .ok (.complete 1 [.dbl] [])
  | s, .dbl => .ok (.plain (s.getD 0 * 2))
  | _, .bad => .error ()
  | s, .finA => .ok (.plain (s.getD 0))

/-- Counter configuration over `tickReducer`. -/
def cfgTick : Config Nat CAct CEvt :=
  { cfgCounter with reducer := tickReducer }

/-- The counter store with one listener and the count initialised to `0`. -/
def stZero : StoreState Nat CAct CEvt :=
  { counterStart with state := some 0 }

/-- `stZero` with one pending `Tick` action. -/
def stTick : StoreState Nat CAct CEvt :=
  { stZero with actions := [CAct.tick] }

/-- The counter scenario of spec §8.1: auto-init, then `Inc 1`, `Inc 2`,
`Inc 3`, each dispatched with the listener in place. -/
def counterRun : DrainResult Nat CAct CEvt :=
  andThen (andThen (andThen
    (dispatchItems cfgCounter 10 [.action .initA] counterStart)
    (dispatchItems cfgCounter 10 [.action (.inc 1)]))
    (dispatchItems cfgCounter 10 [.action (.inc 2)]))
    (dispatchItems cfgCounter 10 [.action (.inc 3)])

/-- The middleware-drop scenario of spec §8.4: auto-init, then
`Inc 1, Inc 2, Inc 3` dispatched under the `Inc 2`-dropping middleware. -/
def dropRun : DrainResult Nat CAct CEvt :=
  andThen (dispatchItems cfgDrop2 10 [.action .initA] counterStart)
    (dispatchItems cfgDrop2 10 [.action (.inc 1), .action (.inc 2), .action (.inc 3)])

/-- The actions enqueued onto the action queue by one `_dispatch_list`
call over the given items (middleware-transformed, drops removed). -/
def enqueuedActions {S A E : Type} (cfg : Config S A E) : List (Item A E) → List A
  | [] => []
  | .action a :: rest =>
    (match applyMiddlewares cfg.actionMiddlewares a with
     | none => []
     | some a₂ => [a₂]) ++ enqueuedActions cfg rest
  | .event _ :: rest => enqueuedActions cfg rest

/-- The events enqueued onto the event queue by one `_dispatch_list` call
over the given items. -/
def enqueuedEvents {S A E : Type} (cfg : Config S A E) : List (Item A E) → List E
  | [] => []
  | .action _ :: rest => enqueuedEvents cfg rest
  | .event e :: rest =>
    (match applyMiddlewares cfg.eventMiddlewares e with
     | none => []
     | some e₂ => [e₂]) ++ enqueuedEvents cfg rest

/-- A concrete autorun over the counter: the selector is the identity on
the count, no comparator, a live body pairing its result with object id
`1`, memoization on. -/
def cfgAuto : AutorunCfg Nat Nat Nat where
  selector := fun s => some s
  comparator := none
  func := some (fun v _ => (1, v))
  memoization := true

/-- A concrete autorun state: selector result `3` remembered, cached value
`(0, 3)` — equal payload but a different object id than what the body will
produce — one subscriber (id `4`). -/
def autoStart : AutorunState Nat Nat where
  lastSelectorResult := some 3
  lastComparatorResult := some 3
  shouldBeCalled := false
  latestValue := (0, 3)
  subscriptions := [4]
  informLog := []

/-!
## Basic lemmas about the dispatch path
-/

/-- Setting the action queue to its own value is the identity. -/
theorem set_actions_eq {S A E : Type} (st : StoreState S A E) (l : List A)
    (h : st.actions = l) : { st with actions := l } = st := by
  rw [← h]

/-- Setting the event queue to its own value is the identity. -/
theorem set_events_eq {S A E : Type} (st : StoreState S A E) (l : List E)
    (h : st.events = l) : { st with events := l } = st := by
  rw [← h]

/-- `_dispatch_list` in closed form: it appends the middleware-filtered
actions and events to the respective queues and changes nothing else. -/
theorem dispatchList_eq {S A E : Type} (cfg : Config S A E)
    (items : List (Item A E)) (st : StoreState S A E) :
    dispatchList cfg items st =
      { st with
        actions := st.actions ++ enqueuedActions cfg items
        events := st.events ++ enqueuedEvents cfg items } := by
  induction items generalizing st with
  | nil => simp [dispatchList, enqueuedActions, enqueuedEvents]
  | cons it rest ih =>
    cases it with
    | action a =>
      cases h : applyMiddlewares cfg.actionMiddlewares a with
      | none => simp [dispatchList, enqueuedActions, enqueuedEvents, h, ih]
      | some a₂ => simp [dispatchList, enqueuedActions, enqueuedEvents, h, ih]
    | event e =>
      cases h : applyMiddlewares cfg.eventMiddlewares e with
      | none => simp [dispatchList, enqueuedActions, enqueuedEvents, h, ih]
      | some e₂ => simp [dispatchList, enqueuedActions, enqueuedEvents, h, ih]

/-- Over a list of bare actions, the enqueued actions are the middleware
chain applied as a `filterMap`. -/
theorem enqueuedActions_map_action {S A E : Type} (cfg : Config S A E) (l : List A) :
    enqueuedActions cfg (l.map Item.action) =
      l.filterMap (applyMiddlewares cfg.actionMiddlewares) := by
  induction l with
  | nil => simp [enqueuedActions]
  | cons a l ih =>
    cases h : applyMiddlewares cfg.actionMiddlewares a <;>
      simp [enqueuedActions, h, ih, List.filterMap_cons]

/-- A list of bare actions enqueues no events. -/
theorem enqueuedEvents_map_action {S A E : Type} (cfg : Config S A E) (l : List A) :
    enqueuedEvents cfg (l.map Item.action) = [] := by
  induction l with
  | nil => simp [enqueuedEvents]
  | cons a l ih => simp [enqueuedEvents, ih]

/-- A list of bare events enqueues no actions. -/
theorem enqueuedActions_map_event {S A E : Type} (cfg : Config S A E) (l : List E) :
    enqueuedActions cfg (l.map Item.event) = [] := by
  induction l with
  | nil => simp [enqueuedActions]
  | cons e l ih => simp [enqueuedActions, ih]

/-- Over a list of bare events, the enqueued events are the middleware
chain applied as a `filterMap`. -/
theorem enqueuedEvents_map_event {S A E : Type} (cfg : Config S A E) (l : List E) :
    enqueuedEvents cfg (l.map Item.event) =
      l.filterMap (applyMiddlewares cfg.eventMiddlewares) := by
  induction l with
  | nil => simp [enqueuedEvents]
  | cons e l ih =>
    cases h : applyMiddlewares cfg.eventMiddlewares e <;>
      simp [enqueuedEvents, h, ih, List.filterMap_cons]

/-- `stepEvent` touches only `finishTriggered` and the worker queue. -/
theorem stepEvent_frame {S A E : Type} (cfg : Config S A E) (e : E)
    (st : StoreState S A E) :
    (stepEvent cfg e st).state = st.state ∧
    (stepEvent cfg e st).actions = st.actions ∧
    (stepEvent cfg e st).events = st.events ∧
    (stepEvent cfg e st).listeners = st.listeners ∧
    (stepEvent cfg e st).handlers = st.handlers ∧
    (stepEvent cfg e st).listenerLog = st.listenerLog := by
  cases h : cfg.isFinishEvent e <;> simp [stepEvent, h]

/-- `runEventsFrom` touches only `finishTriggered` and the worker queue. -/
theorem runEventsFrom_frame {S A E : Type} (cfg : Config S A E) (l : List E)
    (st : StoreState S A E) :
    (runEventsFrom cfg l st).state = st.state ∧
    (runEventsFrom cfg l st).actions = st.actions ∧
    (runEventsFrom cfg l st).events = st.events ∧
    (runEventsFrom cfg l st).listeners = st.listeners ∧
    (runEventsFrom cfg l st).handlers = st.handlers ∧
    (runEventsFrom cfg l st).listenerLog = st.listenerLog := by
  induction l generalizing st with
  | nil => simp [runEventsFrom]
  | cons e l ih =>
    have hs := stepEvent_frame cfg e st
    have hr := ih (stepEvent cfg e st)
    simp only [runEventsFrom]
    exact ⟨hr.1.trans hs.1, hr.2.1.trans hs.2.1, hr.2.2.1.trans hs.2.2.1,
      hr.2.2.2.1.trans hs.2.2.2.1, hr.2.2.2.2.1.trans hs.2.2.2.2.1,
      hr.2.2.2.2.2.trans hs.2.2.2.2.2⟩

/-- `_run_event_handlers` leaves the event queue empty and changes nothing
observable to the action path. -/
theorem runEventHandlers_facts {S A E : Type} (cfg : Config S A E)
    (st : StoreState S A E) :
    (runEventHandlers cfg st).state = st.state ∧
    (runEventHandlers cfg st).actions = st.actions ∧
    (runEventHandlers cfg st).events = [] ∧
    (runEventHandlers cfg st).listeners = st.listeners ∧
    (runEventHandlers cfg st).handlers = st.handlers ∧
    (runEventHandlers cfg st).listenerLog = st.listenerLog := by
  have h := runEventsFrom_frame cfg st.events { st with events := [] }
  simp only [runEventHandlers]
  exact ⟨h.1, h.2.1, h.2.2.1, h.2.2.2.1, h.2.2.2.2.1, h.2.2.2.2.2⟩

/-!
## Claim theorems
-/

/-- C3: for the counter reducer (`Init` yields count `0`, `Inc n` adds
`n`), after auto-init, dispatching `Inc 1`, `Inc 2`, `Inc 3` with a
listener subscribed from the start produces exactly the listener sequence
`0, 1, 3, 6`, and the snapshot afterwards reflects count `6`. -/
theorem counter_scenario_ok :
    drainLog counterRun = some [(0, 0), (0, 1), (0, 3), (0, 6)] ∧
    drainSnapshot counterRun = some (some 6) := by
  exact ⟨by decide, by decide⟩

/-- C2: when the middleware chain drops an item, the item is discarded
silently — it is enqueued on neither queue and the ensuing drain is the
drain of the untouched store, so no reducer call and no listener
notification happen for it; concretely, with an action middleware dropping
`Inc 2`, dispatching `Inc 1, Inc 2, Inc 3` on the counter after init
yields the listener sequence `0, 1, 4` and final count `4`, not `6`. -/
theorem middleware_drop_discards {S A E : Type} (cfg : Config S A E)
    (fuel : Nat) (st : StoreState S A E) (a : A) (e : E)
    (ha : applyMiddlewares cfg.actionMiddlewares a = none)
    (he : applyMiddlewares cfg.eventMiddlewares e = none) :
    dispatchList cfg [.action a] st = st ∧
    dispatchList cfg [.event e] st = st ∧
    dispatchItems cfg fuel [.action a] st = runStore cfg fuel st ∧
    dispatchItems cfg fuel [.event e] st = runStore cfg fuel st ∧
    drainLog dropRun = some [(0, 0), (0, 1), (0, 4)] ∧
    drainSnapshot dropRun = some (some 4) := by
  have h1 : dispatchList cfg [.action a] st = st := by
    simp [dispatchList, ha]
  have h2 : dispatchList cfg [.event e] st = st := by
    simp [dispatchList, he]
  exact ⟨h1, h2, by simp [dispatchItems, h1], by simp [dispatchItems, h2],
    by decide, by decide⟩

/-- Witness for C2 at the drop middlewares of `cfgDropBoth`, the dropped
action `Inc 2` and the dropped event `Ping`. -/
theorem middleware_drop_discards_witness :
    dispatchList cfgDropBoth [.action (.inc 2)] emptyStore = emptyStore ∧
    dispatchList cfgDropBoth [.event .ping] emptyStore = emptyStore ∧
    dispatchItems cfgDropBoth 5 [.action (.inc 2)] emptyStore =
      runStore cfgDropBoth 5 emptyStore ∧
    dispatchItems cfgDropBoth 5 [.event .ping] emptyStore =
      runStore cfgDropBoth 5 emptyStore ∧
    drainLog dropRun = some [(0, 0), (0, 1), (0, 4)] ∧
    drainSnapshot dropRun = some (some 4) :=
  middleware_drop_discards cfgDropBoth 5 emptyStore (.inc 2) .ping
    (by decide) (by decide)

/-- C4 (amended): during the event-drain pass, for every popped event, a
`Finish` event triggers orderly shutdown — and for every popped event,
`Finish` events included rather than excluded, the event's variant tag is
looked up in the handler registry and a `(handler, event)` pair is
enqueued onto the worker queue for every registered handler of that tag. -/
theorem event_drain_step {S A E : Type} (cfg : Config S A E)
    (st : StoreState S A E) (e : E) (rest : List E)
    (hq : st.events = e :: rest) :
    runEventHandlers cfg st =
      runEventsFrom cfg rest (stepEvent cfg e { st with events := [] }) ∧
    ∀ x : StoreState S A E,
      (stepEvent cfg e x).finishTriggered =
        x.finishTriggered + (if cfg.isFinishEvent e then 1 else 0) ∧
      (stepEvent cfg e x).workerQueue =
        x.workerQueue ++
          (x.handlers.filter (fun p => p.1 == cfg.tagOf e)).map (fun p => (p.2, e)) ∧
      (stepEvent cfg e x).handlers = x.handlers := by
  constructor
  · simp [runEventHandlers, hq, runEventsFrom]
  · intro x
    cases h : cfg.isFinishEvent e <;> simp [stepEvent, h]

/-- Witness for C4 at a store whose pending event is `FinishEvent` with a
handler registered under the `FinishEvent` tag. -/
theorem event_drain_step_witness :
    runEventHandlers cfgCounter finStore =
      runEventsFrom cfgCounter [] (stepEvent cfgCounter .finE { finStore with events := [] }) ∧
    ∀ x : StoreState Nat CAct CEvt,
      (stepEvent cfgCounter .finE x).finishTriggered =
        x.finishTriggered + (if cfgCounter.isFinishEvent .finE then 1 else 0) ∧
      (stepEvent cfgCounter .finE x).workerQueue =
        x.workerQueue ++
          (x.handlers.filter (fun p => p.1 == cfgCounter.tagOf .finE)).map
            (fun p => (p.2, .finE)) ∧
      (stepEvent cfgCounter .finE x).handlers = x.handlers :=
  event_drain_step cfgCounter finStore .finE [] (by decide)

/-- Counterexample to C4 as stated: the handler lookup is *not* exclusive
with the `Finish` case — popping a `FinishEvent` with a handler registered
under its tag both triggers shutdown and enqueues the handler. -/
theorem event_drain_step_cx :
    (runEventHandlers cfgCounter finStore).finishTriggered = 1 ∧
    (runEventHandlers cfgCounter finStore).workerQueue = [(7, .finE)] := by
  exact ⟨by decide, by decide⟩

/-- C7 (amended): a reducer exception aborts the drain and propagates, the
store keeps its state, listener log, event queue and all actions queued
*behind* the failing one — but the failing action itself was already
popped and is not re-queued. -/
theorem reducer_exception_aborts {S A E : Type} (cfg : Config S A E)
    (st : StoreState S A E) (a : A) (rest : List A) (fuel : Nat)
    (hq : st.actions = a :: rest)
    (herr : cfg.reducer st.state a = .error ()) :
    runActions cfg (fuel + 1) st = .err { st with actions := rest } ∧
    runStore cfg (fuel + 2) st = .err { st with actions := rest } := by
  have h1 : runActions cfg (fuel + 1) st = .err { st with actions := rest } := by
    simp [runActions, hq, herr]
  have hne : st.actions.isEmpty = false := by simp [hq]
  refine ⟨h1, ?_⟩
  simp [runStore, hne, h1]

/-- Witness for C7 at the counter reducer, failing on `Bad` with `Inc 1`
queued behind it. -/
theorem reducer_exception_aborts_witness :
    runActions cfgCounter 4 { emptyStore with actions := [.bad, .inc 1] } =
      .err { emptyStore with actions := [.inc 1] } ∧
    runStore cfgCounter 5 { emptyStore with actions := [.bad, .inc 1] } =
      .err { emptyStore with actions := [.inc 1] } :=
  reducer_exception_aborts cfgCounter { emptyStore with actions := [.bad, .inc 1] }
    .bad [.inc 1] 3 (by decide) rfl

/-- Counterexample to C7 as stated: after a drain aborted by a reducer
exception, the action whose reducer call raised is *not* still queued —
dispatching only `Bad` leaves the action queue empty, so not every item
that was queued is retained. -/
theorem reducer_exception_cx :
    dispatchItems cfgCounter 5 [.action .bad] emptyStore = .err emptyStore ∧
    emptyStore.actions = [] := by
  exact ⟨by decide, by decide⟩

/-- C9: after a body run the subscribers are notified exactly when the
newly cached result is not the identical object to the previously cached
one — a result equal to but not identical with the previous value
notifies every subscriber with the new value, while the very same object
notifies none. -/
theorem autorun_inform_on_identity {S V R : Type} (cfg : AutorunCfg S V R)
    (args : List Nat) (a : AutorunState V R) (f : V → List Nat → Nat × R)
    (selRes : V)
    (hf : cfg.func = some f)
    (hsel : a.lastSelectorResult = some selRes) :
    (acall cfg args a).2 = true ∧
    (acall cfg args a).1.latestValue = f selRes args ∧
    ((f selRes args).1 ≠ a.latestValue.1 →
      (acall cfg args a).1.informLog =
        a.informLog ++ a.subscriptions.map (fun i => (i, f selRes args))) ∧
    ((f selRes args).1 = a.latestValue.1 →
      (acall cfg args a).1.informLog = a.informLog) := by
  by_cases hid : (f selRes args).1 = a.latestValue.1 <;>
    simp [acall, hf, hsel, informSubscribers, hid]

/-- Witness for C9: the body produces `(1, 3)` — payload equal to the
cached `(0, 3)` but a different object — so the subscriber is notified. -/
theorem autorun_inform_on_identity_witness :
    (acall cfgAuto [] autoStart).2 = true ∧
    (acall cfgAuto [] autoStart).1.latestValue = (1, 3) ∧
    (((1 : Nat), (3 : Nat)).1 ≠ autoStart.latestValue.1 →
      (acall cfgAuto [] autoStart).1.informLog =
        autoStart.informLog ++ autoStart.subscriptions.map (fun i => (i, (1, 3)))) ∧
    (((1 : Nat), (3 : Nat)).1 = autoStart.latestValue.1 →
      (acall cfgAuto [] autoStart).1.informLog = autoStart.informLog) :=
  autorun_inform_on_identity cfgAuto [] autoStart (fun v _ => (1, v)) 3 rfl rfl

/-- C10: `dispatch(with_state=f)` invokes `f` unconditionally on the raw
current state — which is `None` before the first reducer run — and
dispatches the items it returns before the positional parameters of the
same call; unlike the `with_state` decorator, which raises on an
uninitialized store unless `ignore_uninitialized_store` is set, this path
performs no initialization check. -/
theorem dispatch_with_state_raw {S A E : Type} (cfg : Config S A E) (fuel : Nat)
    (f : Option S → List (Item A E)) (params : List (Item A E))
    (st : StoreState S A E) (hnone : st.state = none) :
    dispatch cfg fuel (some f) params st =
      andThen (dispatchItems cfg fuel (f st.state) st)
        (dispatchItems cfg fuel params) ∧
    dispatch cfg fuel (some f) params st =
      andThen (dispatchItems cfg fuel (f none) st)
        (dispatchItems cfg fuel params) ∧
    (∀ (V R : Type) (selector : S → V) (g : V → R),
      withStateWrapper false selector g st.state = .error ()) ∧
    (∀ (V R : Type) (selector : S → V) (g : V → R),
      withStateWrapper true selector g st.state = .ok none) := by
  have h1 : dispatch cfg fuel (some f) params st =
      andThen (dispatchItems cfg fuel (f st.state) st)
        (dispatchItems cfg fuel params) := by
    cases h : dispatchItems cfg fuel (f st.state) st <;> simp [dispatch, andThen, h]
  refine ⟨h1, ?_, ?_, ?_⟩
  · rw [h1, hnone]
  · intro V R sel g
    simp [withStateWrapper, hnone]
  · intro V R sel g
    simp [withStateWrapper, hnone]

/-- Witness for C10 on a fresh store (state `None`). -/
theorem dispatch_with_state_raw_witness :
    dispatch cfgSimple 10 (some fun _ => [.action (.inc 1)])
        [.action (.inc 2)] emptyStore =
      andThen (dispatchItems cfgSimple 10 [.action (.inc 1)] emptyStore)
        (dispatchItems cfgSimple 10 [.action (.inc 2)]) ∧
    dispatch cfgSimple 10 (some fun _ => [.action (.inc 1)])
        [.action (.inc 2)] emptyStore =
      andThen (dispatchItems cfgSimple 10 [.action (.inc 1)] emptyStore)
        (dispatchItems cfgSimple 10 [.action (.inc 2)]) ∧
    (∀ (V R : Type) (selector : Nat → V) (g : V → R),
      withStateWrapper false selector g emptyStore.state = .error ()) ∧
    (∀ (V R : Type) (selector : Nat → V) (g : V → R),
      withStateWrapper true selector g emptyStore.state = .ok none) :=
  dispatch_with_state_raw cfgSimple 10 (fun _ => [.action (.inc 1)])
    [.action (.inc 2)] emptyStore rfl

/-- C1 (amended): when a reducer call returns a composite result, the
drain first replaces the state and notifies listeners with it, and only
then enqueues the composite's extra actions and extra events — and those
extra items *are* passed through the action/event middleware chains (the
normal dispatch path), not enqueued middleware-free. -/
theorem composite_result_order {S A E : Type} (cfg : Config S A E)
    (st : StoreState S A E) (a : A) (rest : List A) (s₂ : S)
    (acts : List A) (evts : List E) (fuel : Nat)
    (hq : st.actions = a :: rest)
    (hr : cfg.reducer st.state a = .ok (.complete s₂ acts evts))
    (hfin : cfg.isFinishAction a = false) :
    runActions cfg (fuel + 1) st =
      runActions cfg fuel
        (dispatchList cfg (evts.map .event)
          (dispatchList cfg (acts.map .action)
            (callListeners { st with actions := rest, state := some s₂ } s₂))) ∧
    (callListeners { st with actions := rest, state := some s₂ } s₂).state = some s₂ ∧
    (callListeners { st with actions := rest, state := some s₂ } s₂).listenerLog =
      st.listenerLog ++ st.listeners.map (fun i => (i, s₂)) ∧
    (callListeners { st with actions := rest, state := some s₂ } s₂).actions = rest ∧
    (callListeners { st with actions := rest, state := some s₂ } s₂).events = st.events ∧
    (dispatchList cfg (evts.map .event)
      (dispatchList cfg (acts.map .action)
        (callListeners { st with actions := rest, state := some s₂ } s₂))).actions =
      rest ++ acts.filterMap (applyMiddlewares cfg.actionMiddlewares) ∧
    (dispatchList cfg (evts.map .event)
      (dispatchList cfg (acts.map .action)
        (callListeners { st with actions := rest, state := some s₂ } s₂))).events =
      st.events ++ evts.filterMap (applyMiddlewares cfg.eventMiddlewares) := by
  refine ⟨?_, by simp [callListeners], by simp [callListeners],
    by simp [callListeners], by simp [callListeners], ?_, ?_⟩
  · simp [runActions, hq, hr, stepOk, hfin]
  · simp [dispatchList_eq, enqueuedActions_map_action, enqueuedEvents_map_action,
      enqueuedActions_map_event, enqueuedEvents_map_event, callListeners]
  · simp [dispatchList_eq, enqueuedActions_map_action, enqueuedEvents_map_action,
      enqueuedActions_map_event, enqueuedEvents_map_event, callListeners]

/-- Witness for C1 at the counter with `Tick` returning the composite
`(10, actions=[Inc 5])` under the `Inc 5`-dropping action middleware. -/
theorem composite_result_order_witness :
    runActions cfgDrop5 4 stTick =
      runActions cfgDrop5 3
        (dispatchList cfgDrop5 (([] : List CEvt).map .event)
          (dispatchList cfgDrop5 ([CAct.inc 5].map .action)
            (callListeners { stTick with actions := ([] : List CAct), state := some 10 } 10))) ∧
    (callListeners { stTick with actions := ([] : List CAct), state := some 10 } 10).state = some 10 ∧
    (callListeners { stTick with actions := ([] : List CAct), state := some 10 } 10).listenerLog =
      stTick.listenerLog ++ stTick.listeners.map (fun i => (i, 10)) ∧
    (callListeners { stTick with actions := ([] : List CAct), state := some 10 } 10).actions = [] ∧
    (callListeners { stTick with actions := ([] : List CAct), state := some 10 } 10).events =
      stTick.events ∧
    (dispatchList cfgDrop5 (([] : List CEvt).map .event)
      (dispatchList cfgDrop5 ([CAct.inc 5].map .action)
        (callListeners { stTick with actions := ([] : List CAct), state := some 10 } 10))).actions =
      [] ++ [CAct.inc 5].filterMap (applyMiddlewares cfgDrop5.actionMiddlewares) ∧
    (dispatchList cfgDrop5 (([] : List CEvt).map .event)
      (dispatchList cfgDrop5 ([CAct.inc 5].map .action)
        (callListeners { stTick with actions := ([] : List CAct), state := some 10 } 10))).events =
      stTick.events ++ ([] : List CEvt).filterMap (applyMiddlewares cfgDrop5.eventMiddlewares) :=
  composite_result_order cfgDrop5 stTick
    .tick [] 10 [.inc 5] [] 3 (by decide) rfl (by decide)

/-- Counterexample to C1 as stated: the composite's extra action `Inc 5`
is *not* enqueued middleware-free — the `Inc 5`-dropping middleware
removes it, so after `Init; Tick` the count stays `10` (a bypass would
have yielded `15`) and the listener log has no entry beyond `0` and
`10`. -/
theorem composite_result_order_cx :
    dispatchItems cfgDrop5 10 [.action .initA, .action .tick] counterStart =
      .ok { state := some 10, actions := [], events := [], listeners := [0],
            handlers := [], listenerLog := [(0, 0), (0, 10)], workerQueue := [],
            finishTriggered := 0 } := by
  decide

/-- `Autorun.check` sets `_should_be_called` to its old value ored with
"the comparator output computed from the current state differs from the
remembered one", and it never touches `_latest_value`. -/
theorem acheck_flag {S V R : Type} [DecidableEq V] (cfg : AutorunCfg S V R)
    (state : Option S) (a : AutorunState V R) :
    (acheck cfg state a).2.shouldBeCalled =
      (a.shouldBeCalled || comparatorDiffers cfg state a) ∧
    (acheck cfg state a).2.latestValue = a.latestValue := by
  cases state with
  | none => simp [acheck, comparatorDiffers, comparatorNow]
  | some s =>
    cases hsel : cfg.selector s with
    | none => simp [acheck, comparatorDiffers, comparatorNow, hsel]
    | some selRes =>
      cases hcomp : cfg.comparator with
      | none => simp [acheck, comparatorDiffers, comparatorNow, hsel, hcomp]
      | some c =>
        cases hc : c s <;>
          simp [acheck, comparatorDiffers, comparatorNow, hsel, hcomp, hc]

/-- C5: for an autorun with `memoization = true`, an invocation runs the
wrapped body only when the comparator output computed from the current
state differs from the last remembered value (a pending difference from an
earlier check counts via `_should_be_called`), or when the caller supplied
arguments; otherwise the cached result is returned without running the
body. -/
theorem memoized_autorun {S V R : Type} [DecidableEq V] (cfg : AutorunCfg S V R)
    (state : Option S) (args : List Nat) (a : AutorunState V R)
    (hmemo : cfg.memoization = true) :
    ((acallable cfg state args a).2.2 = true →
      a.shouldBeCalled = true ∨ comparatorDiffers cfg state a = true ∨ args ≠ []) ∧
    (a.shouldBeCalled = false → comparatorDiffers cfg state a = false → args = [] →
      (acallable cfg state args a).2.2 = false ∧
      (acallable cfg state args a).2.1 = a.latestValue) := by
  obtain ⟨hflag, hlatest⟩ := acheck_flag cfg state a
  constructor
  · intro hran
    by_contra hcon
    push_neg at hcon
    obtain ⟨h1, h2, h3⟩ := hcon
    have hb1 : a.shouldBeCalled = false := by
      cases hx : a.shouldBeCalled
      · rfl
      · exact absurd hx h1
    have hb2 : comparatorDiffers cfg state a = false := by
      cases hx : comparatorDiffers cfg state a
      · rfl
      · exact absurd hx h2
    have hcond : ((acheck cfg state a).2.shouldBeCalled
        || !args.isEmpty || !cfg.memoization) = false := by
      simp [hflag, hb1, hb2, h3, hmemo]
    simp [acallable, hcond] at hran
  · intro h1 h2 h3
    have hcond : ((acheck cfg state a).2.shouldBeCalled
        || !args.isEmpty || !cfg.memoization) = false := by
      simp [hflag, h1, h2, h3, hmemo]
    simp [acallable, hcond, hlatest]

/-- Witness for C5: with the remembered comparator value equal to the
current one, no pending flag and no arguments, the cached `(0, 3)` is
returned and the body does not run. -/
theorem memoized_autorun_witness :
    ((acallable cfgAuto (some 3) [] autoStart).2.2 = true →
      autoStart.shouldBeCalled = true ∨
      comparatorDiffers cfgAuto (some 3) autoStart = true ∨ ([] : List Nat) ≠ []) ∧
    (autoStart.shouldBeCalled = false →
      comparatorDiffers cfgAuto (some 3) autoStart = false → ([] : List Nat) = [] →
      (acallable cfgAuto (some 3) [] autoStart).2.2 = false ∧
      (acallable cfgAuto (some 3) [] autoStart).2.1 = autoStart.latestValue) :=
  memoized_autorun cfgAuto (some 3) [] autoStart rfl

/-!
## Registry invariants through a drain
-/

/-- `Extends` is reflexive. -/
theorem extends_rfl {S A E : Type} (cfg : Config S A E) (st : StoreState S A E) :
    Extends cfg st st :=
  ⟨rfl, rfl, fun _ hp => Or.inl hp, fun _ hq => Or.inl hq⟩

/-- `Extends` is transitive. -/
theorem extends_trans {S A E : Type} {cfg : Config S A E}
    {st₁ st₂ st₃ : StoreState S A E}
    (h₁ : Extends cfg st₁ st₂) (h₂ : Extends cfg st₂ st₃) :
    Extends cfg st₁ st₃ := by
  obtain ⟨l₁, r₁, p₁, q₁⟩ := h₁
  obtain ⟨l₂, r₂, p₂, q₂⟩ := h₂
  refine ⟨l₂.trans l₁, r₂.trans r₁, ?_, ?_⟩
  · intro p hp
    rcases p₂ p hp with h | h
    · exact p₁ p h
    · rw [l₁] at h
      exact Or.inr h
  · intro q hq
    rcases q₂ q hq with h | h
    · exact q₁ q h
    · rw [r₁] at h
      exact Or.inr h

/-- A store differing only in state and queues extends the original. -/
theorem extends_of_queues {S A E : Type} (cfg : Config S A E)
    {st st' : StoreState S A E}
    (hl : st'.listeners = st.listeners) (hh : st'.handlers = st.handlers)
    (hlog : st'.listenerLog = st.listenerLog)
    (hwq : st'.workerQueue = st.workerQueue) :
    Extends cfg st st' := by
  refine ⟨hl, hh, ?_, ?_⟩
  · intro p hp
    rw [hlog] at hp
    exact Or.inl hp
  · intro q hq
    rw [hwq] at hq
    exact Or.inl hq

/-- `_dispatch_list` only grows the two queues, so it extends the store. -/
theorem dispatchList_extends {S A E : Type} (cfg : Config S A E)
    (items : List (Item A E)) (st : StoreState S A E) :
    Extends cfg st (dispatchList cfg items st) := by
  apply extends_of_queues <;> rw [dispatchList_eq]

/-- `_call_listeners` logs entries only for registered listeners. -/
theorem callListeners_extends {S A E : Type} (cfg : Config S A E)
    (st : StoreState S A E) (s : S) :
    Extends cfg st (callListeners st s) := by
  refine ⟨rfl, rfl, ?_, fun q hq => Or.inl hq⟩
  intro p hp
  simp only [callListeners, List.mem_append, List.mem_map] at hp
  rcases hp with h | ⟨i, hi, hip⟩
  · exact Or.inl h
  · right
    rw [← hip]
    exact hi

/-- One action-processing step extends the store. -/
theorem stepOk_extends {S A E : Type} (cfg : Config S A E) (a : A)
    (r : ReducerResult S A E) (st : StoreState S A E) :
    Extends cfg st (stepOk cfg a r st) := by
  have hbody :
      Extends cfg st
        (match r with
         | .plain s => callListeners { st with state := some s } s
         | .complete s acts evts =>
           dispatchList cfg (evts.map .event)
             (dispatchList cfg (acts.map .action)
               (callListeners { st with state := some s } s))) := by
    cases r with
    | plain s =>
      dsimp only
      have e₁ : Extends cfg st { st with state := some s } :=
        extends_of_queues cfg rfl rfl rfl rfl
      exact extends_trans e₁
        (callListeners_extends cfg { st with state := some s } s)
    | complete s acts evts =>
      dsimp only
      have e₁ : Extends cfg st { st with state := some s } :=
        extends_of_queues cfg rfl rfl rfl rfl
      have e₂ : Extends cfg st (callListeners { st with state := some s } s) :=
        extends_trans e₁ (callListeners_extends cfg { st with state := some s } s)
      have e₃ := dispatchList_extends cfg (acts.map .action)
        (callListeners { st with state := some s } s)
      have e₄ := dispatchList_extends cfg (evts.map .event)
        (dispatchList cfg (acts.map .action)
          (callListeners { st with state := some s } s))
      exact extends_trans (extends_trans e₂ e₃) e₄
  simp only [stepOk]
  split
  · exact extends_trans hbody (dispatchList_extends cfg _ _)
  · exact hbody

/-- The worker queue after `stepEvent` in closed form. -/
theorem stepEvent_worker_eq {S A E : Type} (cfg : Config S A E) (e : E)
    (st : StoreState S A E) :
    (stepEvent cfg e st).workerQueue =
      st.workerQueue ++
        (st.handlers.filter (fun p => p.1 == cfg.tagOf e)).map (fun p => (p.2, e)) := by
  cases h : cfg.isFinishEvent e <;> simp [stepEvent, h]

/-- One event-processing step extends the store. -/
theorem stepEvent_extends {S A E : Type} (cfg : Config S A E) (e : E)
    (st : StoreState S A E) :
    Extends cfg st (stepEvent cfg e st) := by
  have hfr := stepEvent_frame cfg e st
  refine ⟨hfr.2.2.2.1, hfr.2.2.2.2.1, ?_, ?_⟩
  · intro p hp
    rw [hfr.2.2.2.2.2] at hp
    exact Or.inl hp
  · intro q hq
    rw [stepEvent_worker_eq] at hq
    rcases List.mem_append.mp hq with h | h
    · exact Or.inl h
    · right
      obtain ⟨p, hp, hqe⟩ := List.mem_map.mp h
      have hpf := List.mem_filter.mp hp
      have htag : p.1 = cfg.tagOf e := by simpa using hpf.2
      rw [← hqe]
      simpa [← htag] using hpf.1

/-- The event-drain loop extends the store. -/
theorem runEventsFrom_extends {S A E : Type} (cfg : Config S A E)
    (l : List E) (st : StoreState S A E) :
    Extends cfg st (runEventsFrom cfg l st) := by
  induction l generalizing st with
  | nil => exact extends_rfl cfg st
  | cons e l ih =>
    simp only [runEventsFrom]
    exact extends_trans (stepEvent_extends cfg e st) (ih (stepEvent cfg e st))

/-- `_run_event_handlers` extends the store. -/
theorem runEventHandlers_extends {S A E : Type} (cfg : Config S A E)
    (st : StoreState S A E) :
    Extends cfg st (runEventHandlers cfg st) := by
  simp only [runEventHandlers]
  exact extends_trans (extends_of_queues cfg rfl rfl rfl rfl)
    (runEventsFrom_extends cfg st.events { st with events := [] })

/-- A completed or aborted `_run_actions` extends the store. -/
theorem runActions_extends {S A E : Type} (cfg : Config S A E) :
    ∀ (fuel : Nat) (st st' : StoreState S A E),
      (runActions cfg fuel st = .ok st' ∨ runActions cfg fuel st = .err st') →
      Extends cfg st st' := by
  intro fuel
  induction fuel with
  | zero =>
    intro st st' h
    rcases h with h | h <;> simp [runActions] at h
  | succ fuel ih =>
    intro st st' h
    rcases hq : st.actions with _ | ⟨a, rest⟩
    · have he : runActions cfg (fuel + 1) st = .ok st := by
        simp [runActions, hq]
      rcases h with h | h <;> rw [he] at h
      · injection h with h₂
        rw [← h₂]
        exact extends_rfl cfg st
      · exact DrainResult.noConfusion h
    · cases hr : cfg.reducer st.state a with
      | error u =>
        have he : runActions cfg (fuel + 1) st = .err { st with actions := rest } := by
          simp [runActions, hq, hr]
        rcases h with h | h <;> rw [he] at h
        · exact DrainResult.noConfusion h
        · injection h with h₂
          rw [← h₂]
          exact extends_of_queues cfg rfl rfl rfl rfl
      | ok r =>
        have he : runActions cfg (fuel + 1) st =
            runActions cfg fuel (stepOk cfg a r { st with actions := rest }) := by
          simp [runActions, hq, hr]
        rw [he] at h
        exact extends_trans (extends_trans
          (extends_of_queues cfg rfl rfl rfl rfl)
          (stepOk_extends cfg a r { st with actions := rest }))
          (ih _ st' h)

/-- A completed or aborted `run` extends the store. -/
theorem runStore_extends {S A E : Type} (cfg : Config S A E) :
    ∀ (fuel : Nat) (st st' : StoreState S A E),
      (runStore cfg fuel st = .ok st' ∨ runStore cfg fuel st = .err st') →
      Extends cfg st st' := by
  intro fuel
  induction fuel with
  | zero =>
    intro st st' h
    rcases h with h | h <;> simp [runStore] at h
  | succ fuel ih =>
    intro st st' h
    by_cases hemp : (st.actions.isEmpty && st.events.isEmpty) = true
    · have he : runStore cfg (fuel + 1) st = .ok st := by
        simp [runStore, hemp]
      rcases h with h | h <;> rw [he] at h
      · injection h with h₂
        rw [← h₂]
        exact extends_rfl cfg st
      · exact DrainResult.noConfusion h
    · cases hc : (if st.actions.isEmpty then DrainResult.ok st else runActions cfg fuel st) with
      | ok st₂ =>
        have he : runStore cfg (fuel + 1) st =
            runStore cfg fuel
              (if st₂.events.isEmpty then st₂ else runEventHandlers cfg st₂) := by
          simp only [runStore]
          rw [if_neg hemp, hc]
        rw [he] at h
        have h₂ : Extends cfg st st₂ := by
          by_cases hA : st.actions.isEmpty = true
          · rw [if_pos hA] at hc
            injection hc with h₃
            rw [← h₃]
            exact extends_rfl cfg st
          · rw [if_neg hA] at hc
            exact runActions_extends cfg fuel st st₂ (Or.inl hc)
        have h₃ : Extends cfg st₂
            (if st₂.events.isEmpty then st₂ else runEventHandlers cfg st₂) := by
          by_cases hE : st₂.events.isEmpty = true
          · rw [if_pos hE]
            exact extends_rfl cfg st₂
          · rw [if_neg hE]
            exact runEventHandlers_extends cfg st₂
        exact extends_trans (extends_trans h₂ h₃) (ih _ st' h)
      | err st₂ =>
        have he : runStore cfg (fuel + 1) st = .err st₂ := by
          simp only [runStore]
          rw [if_neg hemp, hc]
        rcases h with h | h <;> rw [he] at h
        · exact DrainResult.noConfusion h
        · injection h with h₂
          rw [← h₂]
          by_cases hA : st.actions.isEmpty = true
          · rw [if_pos hA] at hc
            exact DrainResult.noConfusion hc
          · rw [if_neg hA] at hc
            exact runActions_extends cfg fuel st st₂ (Or.inr hc)
      | outOfFuel =>
        have he : runStore cfg (fuel + 1) st = .outOfFuel := by
          simp only [runStore]
          rw [if_neg hemp, hc]
        rcases h with h | h <;> rw [he] at h <;> exact DrainResult.noConfusion h

/-- A completed or aborted inline dispatch extends the store. -/
theorem dispatchItems_extends {S A E : Type} (cfg : Config S A E) (fuel : Nat)
    (items : List (Item A E)) (st st' : StoreState S A E)
    (h : dispatchItems cfg fuel items st = .ok st' ∨
      dispatchItems cfg fuel items st = .err st') :
    Extends cfg st st' :=
  extends_trans (dispatchList_extends cfg items st)
    (runStore_extends cfg fuel (dispatchList cfg items st) st' h)

/-- A completed or aborted `Store.dispatch` extends the store. -/
theorem dispatch_extends {S A E : Type} (cfg : Config S A E) (fuel : Nat)
    (ws : Option (Option S → List (Item A E))) (params : List (Item A E))
    (st st' : StoreState S A E)
    (h : dispatch cfg fuel ws params st = .ok st' ∨
      dispatch cfg fuel ws params st = .err st') :
    Extends cfg st st' := by
  cases ws with
  | none => exact dispatchItems_extends cfg fuel params st st' h
  | some f =>
    cases hc : dispatchItems cfg fuel (f st.state) st with
    | ok st₂ =>
      have he : dispatch cfg fuel (some f) params st =
          dispatchItems cfg fuel params st₂ := by
        simp only [dispatch]
        rw [hc]
      rw [he] at h
      exact extends_trans (dispatchItems_extends cfg fuel _ st st₂ (Or.inl hc))
        (dispatchItems_extends cfg fuel params st₂ st' h)
    | err st₂ =>
      have he : dispatch cfg fuel (some f) params st = .err st₂ := by
        simp only [dispatch]
        rw [hc]
      rcases h with h | h <;> rw [he] at h
      · exact DrainResult.noConfusion h
      · injection h with h₂
        rw [← h₂]
        exact dispatchItems_extends cfg fuel _ st st₂ (Or.inr hc)
    | outOfFuel =>
      have he : dispatch cfg fuel (some f) params st = .outOfFuel := by
        simp only [dispatch]
        rw [hc]
      rcases h with h | h <;> rw [he] at h <;> exact DrainResult.noConfusion h

/-- C8: unsubscribing a listener or an event handler is idempotent
(removing twice equals removing once, with no error), and once removed the
listener is never notified again and the handler is never enqueued again
for its tag by any subsequent dispatch. -/
theorem unsubscribe_props :
    (∀ (S A E : Type) (i : Nat) (st : StoreState S A E),
      unsubscribeListener i (unsubscribeListener i st) = unsubscribeListener i st) ∧
    (∀ (S A E : Type) (tag h : Nat) (st : StoreState S A E),
      unsubscribeEvent tag h (unsubscribeEvent tag h st) = unsubscribeEvent tag h st) ∧
    (∀ (S A E : Type) (cfg : Config S A E) (fuel : Nat)
      (ws : Option (Option S → List (Item A E))) (params : List (Item A E))
      (st st' : StoreState S A E) (i : Nat) (s : S),
      (dispatch cfg fuel ws params (unsubscribeListener i st) = .ok st' ∨
       dispatch cfg fuel ws params (unsubscribeListener i st) = .err st') →
      (i, s) ∈ st'.listenerLog → (i, s) ∈ st.listenerLog) ∧
    (∀ (S A E : Type) (cfg : Config S A E) (fuel : Nat)
      (ws : Option (Option S → List (Item A E))) (params : List (Item A E))
      (st st' : StoreState S A E) (tag h : Nat) (e : E),
      (dispatch cfg fuel ws params (unsubscribeEvent tag h st) = .ok st' ∨
       dispatch cfg fuel ws params (unsubscribeEvent tag h st) = .err st') →
      (h, e) ∈ st'.workerQueue → cfg.tagOf e = tag → (h, e) ∈ st.workerQueue) := by
  refine ⟨?_, ?_, ?_, ?_⟩
  · intro S A E i st
    simp [unsubscribeListener, List.filter_filter]
  · intro S A E tag h st
    simp [unsubscribeEvent, List.filter_filter]
  · intro S A E cfg fuel ws params st st' i s hdisp hmem
    obtain ⟨hl, hh, hlog, hwq⟩ :=
      dispatch_extends cfg fuel ws params (unsubscribeListener i st) st' hdisp
    rcases hlog (i, s) hmem with hold | hmem₂
    · simpa [unsubscribeListener] using hold
    · exfalso
      simp [unsubscribeListener, List.mem_filter] at hmem₂
  · intro S A E cfg fuel ws params st st' tag h e hdisp hmem htag
    obtain ⟨hl, hh, hlog, hwq⟩ :=
      dispatch_extends cfg fuel ws params (unsubscribeEvent tag h st) st' hdisp
    rcases hwq (h, e) hmem with hold | hreg
    · simpa [unsubscribeEvent] using hold
    · exfalso
      rw [htag] at hreg
      simp [unsubscribeEvent, List.mem_filter] at hreg

/-- Witness for C8 at concrete stores: double removal equals single
removal, and after removal the drained stores contain no notification of
listener `0` and no worker enqueue of handler `7`. -/
theorem unsubscribe_props_witness :
    unsubscribeListener 0 (unsubscribeListener 0 counterStart) =
      unsubscribeListener 0 counterStart ∧
    unsubscribeEvent 2 7 (unsubscribeEvent 2 7 finStore) =
      unsubscribeEvent 2 7 finStore ∧
    ((0, (5 : Nat)) ∈ (unsubscribeListener 0 counterStart).listenerLog →
      (0, (5 : Nat)) ∈ counterStart.listenerLog) ∧
    ((7, CEvt.finE) ∈
        ({ emptyStore with finishTriggered := 1 } : StoreState Nat CAct CEvt).workerQueue →
      cfgCounter.tagOf .finE = 2 → (7, CEvt.finE) ∈ finStore.workerQueue) :=
  ⟨unsubscribe_props.1 Nat CAct CEvt 0 counterStart,
   unsubscribe_props.2.1 Nat CAct CEvt 2 7 finStore,
   unsubscribe_props.2.2.1 Nat CAct CEvt cfgCounter 5 none [] counterStart
     (unsubscribeListener 0 counterStart) 0 5 (Or.inl (by decide)),
   unsubscribe_props.2.2.2 Nat CAct CEvt cfgCounter 5 none [] finStore
     { emptyStore with finishTriggered := 1 } 2 7 .finE (Or.inl (by decide))⟩

/-!
## The drain in closed form for reducers without extra actions
-/

/-- The observable effect of one action step: the state becomes the
reducer result's new state, the listeners are unchanged and each gets one
log entry with the new state; when the result carries no extra actions the
action queue is unchanged as well. -/
theorem stepOk_facts {S A E : Type} (cfg : Config S A E) (a : A)
    (r : ReducerResult S A E) (st : StoreState S A E) :
    (stepOk cfg a r st).state = some r.newState ∧
    (stepOk cfg a r st).listeners = st.listeners ∧
    (stepOk cfg a r st).listenerLog =
      st.listenerLog ++ st.listeners.map (fun i => (i, r.newState)) ∧
    (r.extraActions = [] → (stepOk cfg a r st).actions = st.actions) := by
  cases r with
  | plain s =>
    cases hf : cfg.isFinishAction a <;>
      simp [stepOk, hf, callListeners, dispatchList_eq, enqueuedActions,
        enqueuedEvents, ReducerResult.newState, ReducerResult.extraActions]
  | complete s acts evts =>
    have h4 : (ReducerResult.complete s acts evts).extraActions = [] →
        (stepOk cfg a (.complete s acts evts) st).actions = st.actions := by
      intro h
      simp only [ReducerResult.extraActions] at h
      subst h
      cases hf : cfg.isFinishAction a <;>
        simp [stepOk, hf, callListeners, dispatchList_eq, enqueuedActions,
          enqueuedEvents, enqueuedActions_map_action, enqueuedEvents_map_action,
          enqueuedActions_map_event, enqueuedEvents_map_event]
    refine ⟨?_, ?_, ?_, h4⟩ <;>
      cases hf : cfg.isFinishAction a <;>
        simp [stepOk, hf, callListeners, dispatchList_eq, enqueuedActions,
          enqueuedEvents, enqueuedActions_map_action, enqueuedEvents_map_action,
          enqueuedActions_map_event, enqueuedEvents_map_event,
          ReducerResult.newState]

/-- When the reducer result has no extra actions, the action queue plays
no role in `stepOk`: overriding it before or after is the same. -/
theorem stepOk_actions_irrel {S A E : Type} (cfg : Config S A E) (a : A)
    (r : ReducerResult S A E) (st : StoreState S A E) (x y : List A)
    (hext : r.extraActions = []) :
    { stepOk cfg a r { st with actions := x } with actions := y } =
      stepOk cfg a r { st with actions := y } := by
  cases r with
  | plain s =>
    cases hf : cfg.isFinishAction a <;>
      simp [stepOk, hf, callListeners, dispatchList_eq, enqueuedActions,
        enqueuedEvents, enqueuedActions_map_event, enqueuedEvents_map_event]
  | complete s acts evts =>
    simp only [ReducerResult.extraActions] at hext
    subst hext
    cases hf : cfg.isFinishAction a <;>
      simp [stepOk, hf, callListeners, dispatchList_eq, enqueuedActions,
        enqueuedEvents, enqueuedActions_map_action, enqueuedEvents_map_action,
        enqueuedActions_map_event, enqueuedEvents_map_event]

/-- `processActions` leaves the action queue unchanged when the reducer
never emits extra actions. -/
theorem processActions_actions {S A E : Type} (cfg : Config S A E)
    (hred : ∀ (s : Option S) (a : A),
      ∃ r, cfg.reducer s a = .ok r ∧ r.extraActions = []) :
    ∀ (l : List A) (st : StoreState S A E),
      (processActions cfg l st).actions = st.actions := by
  intro l
  induction l with
  | nil => intro st; rfl
  | cons a l ih =>
    intro st
    obtain ⟨r, hr, hext⟩ := hred st.state a
    simp only [processActions]
    rw [hr]
    dsimp only
    rw [ih (stepOk cfg a r st)]
    exact (stepOk_facts cfg a r st).2.2.2 hext

/-- `processActions` over an appended list is sequential processing. -/
theorem processActions_append {S A E : Type} (cfg : Config S A E)
    (hred : ∀ (s : Option S) (a : A),
      ∃ r, cfg.reducer s a = .ok r ∧ r.extraActions = [])
    (l₁ l₂ : List A) :
    ∀ st : StoreState S A E,
      processActions cfg (l₁ ++ l₂) st =
        processActions cfg l₂ (processActions cfg l₁ st) := by
  induction l₁ with
  | nil => intro st; rfl
  | cons a l ih =>
    intro st
    obtain ⟨r, hr, _⟩ := hred st.state a
    simp only [List.cons_append, processActions]
    rw [hr]
    dsimp only
    exact ih (stepOk cfg a r st)

/-- The state, listeners and listener log produced by `processActions`
depend only on the state, listeners and listener log of the input store. -/
theorem processActions_congr {S A E : Type} (cfg : Config S A E) (l : List A) :
    ∀ (st st₂ : StoreState S A E),
      st.state = st₂.state → st.listeners = st₂.listeners →
      st.listenerLog = st₂.listenerLog →
      (processActions cfg l st).state = (processActions cfg l st₂).state ∧
      (processActions cfg l st).listeners = (processActions cfg l st₂).listeners ∧
      (processActions cfg l st).listenerLog =
        (processActions cfg l st₂).listenerLog := by
  induction l with
  | nil => intro st st₂ h1 h2 h3; exact ⟨h1, h2, h3⟩
  | cons a l ih =>
    intro st st₂ h1 h2 h3
    simp only [processActions]
    rw [h1]
    cases hr : cfg.reducer st₂.state a with
    | error u =>
      dsimp only
      exact ⟨h1, h2, h3⟩
    | ok r =>
      dsimp only
      apply ih
      · rw [(stepOk_facts cfg a r st).1, (stepOk_facts cfg a r st₂).1]
      · rw [(stepOk_facts cfg a r st).2.1, (stepOk_facts cfg a r st₂).2.1, h2]
      · rw [(stepOk_facts cfg a r st).2.2.1, (stepOk_facts cfg a r st₂).2.2.1,
          h2, h3]

/-- For a reducer without failures and without extra actions,
`_run_actions` computes `processActions` over the queued actions. -/
theorem runActions_plain {S A E : Type} (cfg : Config S A E)
    (hred : ∀ (s : Option S) (a : A),
      ∃ r, cfg.reducer s a = .ok r ∧ r.extraActions = []) :
    ∀ (l : List A) (fuel : Nat) (st : StoreState S A E),
      st.actions = l → l.length + 1 ≤ fuel →
      runActions cfg fuel st =
        .ok (processActions cfg l { st with actions := [] }) := by
  intro l
  induction l with
  | nil =>
    intro fuel st hq hfl
    obtain ⟨f, rfl⟩ : ∃ f, fuel = f + 1 := ⟨fuel - 1, by omega⟩
    have he : runActions cfg (f + 1) st = .ok st := by
      simp [runActions, hq]
    rw [he,
      show processActions cfg ([] : List A) { st with actions := [] } =
        { st with actions := [] } from rfl,
      set_actions_eq st [] hq]
  | cons a l ih =>
    intro fuel st hq hfl
    obtain ⟨f, rfl⟩ : ∃ f, fuel = f + 1 := ⟨fuel - 1, by omega⟩
    obtain ⟨r, hr, hext⟩ := hred st.state a
    have he : runActions cfg (f + 1) st =
        runActions cfg f (stepOk cfg a r { st with actions := l }) := by
      simp [runActions, hq, hr]
    have hact : (stepOk cfg a r { st with actions := l }).actions = l :=
      (stepOk_facts cfg a r { st with actions := l }).2.2.2 hext
    have hfl₂ : l.length + 1 ≤ f := by
      simp only [List.length_cons] at hfl
      omega
    rw [he, ih f (stepOk cfg a r { st with actions := l }) hact hfl₂]
    have hrhs : processActions cfg (a :: l) { st with actions := [] } =
        processActions cfg l (stepOk cfg a r { st with actions := [] }) := by
      simp only [processActions]
      rw [hr]
    rw [hrhs, stepOk_actions_irrel cfg a r st l [] hext]

/-- A drain on an already empty store returns it unchanged. -/
theorem runStore_done {S A E : Type} (cfg : Config S A E) (fuel : Nat)
    (st : StoreState S A E) (hA : st.actions = []) (hE : st.events = []) :
    runStore cfg (fuel + 1) st = .ok st := by
  simp [runStore, hA, hE]

/-- The unfolding of one `run` iteration when some queue is non-empty. -/
theorem runStore_succ_eq {S A E : Type} (cfg : Config S A E) (f : Nat)
    (st : StoreState S A E)
    (hne : (st.actions.isEmpty && st.events.isEmpty) = false) :
    runStore cfg (f + 1) st =
      match (if st.actions.isEmpty then DrainResult.ok st else runActions cfg f st) with
      | .err st₂ => .err st₂
      | .outOfFuel => .outOfFuel
      | .ok st₂ =>
        runStore cfg f (if st₂.events.isEmpty then st₂ else runEventHandlers cfg st₂) := by
  simp only [runStore]
  rw [if_neg (by simp [hne])]

/-- For a reducer without failures and without extra actions, `run`
computes the closed-form drain `drainedPlain`. -/
theorem runStore_plain {S A E : Type} (cfg : Config S A E)
    (hred : ∀ (s : Option S) (a : A),
      ∃ r, cfg.reducer s a = .ok r ∧ r.extraActions = []) :
    ∀ (fuel : Nat) (st : StoreState S A E),
      st.actions.length + 2 ≤ fuel →
      runStore cfg fuel st = .ok (drainedPlain cfg st) := by
  intro fuel st hfl
  obtain ⟨f, rfl⟩ : ∃ f, fuel = f + 1 := ⟨fuel - 1, by omega⟩
  obtain ⟨f₂, rfl⟩ : ∃ f₂, f = f₂ + 1 := ⟨f - 1, by omega⟩
  have hP := runActions_plain cfg hred st.actions (f₂ + 1) st rfl (by omega)
  have hPact : (processActions cfg st.actions { st with actions := [] }).actions = [] := by
    rw [processActions_actions cfg hred]
  by_cases hA : st.actions.isEmpty = true
  · have hA₂ : st.actions = [] := by simpa [List.isEmpty_iff] using hA
    have hbase : processActions cfg st.actions { st with actions := [] } = st := by
      rw [hA₂,
        show processActions cfg ([] : List A) { st with actions := [] } =
          { st with actions := [] } from rfl,
        set_actions_eq st [] hA₂]
    by_cases hE : st.events.isEmpty = true
    · have hE₂ : st.events = [] := by simpa [List.isEmpty_iff] using hE
      rw [runStore_done cfg (f₂ + 1) st hA₂ hE₂]
      unfold drainedPlain
      rw [hbase]
      unfold runEventHandlers
      rw [hE₂,
        show runEventsFrom cfg ([] : List E) { st with events := [] } =
          { st with events := [] } from rfl,
        set_events_eq st [] hE₂]
    · have hEb : st.events.isEmpty = false := by simpa using hE
      have he : runStore cfg (f₂ + 1 + 1) st =
          runStore cfg (f₂ + 1) (runEventHandlers cfg st) := by
        rw [runStore_succ_eq cfg (f₂ + 1) st (by simp [hA, hEb])]
        rw [if_pos hA]
        dsimp only
        rw [if_neg hE]
      have hact : (runEventHandlers cfg st).actions = [] := by
        rw [(runEventHandlers_facts cfg st).2.1, hA₂]
      have hev : (runEventHandlers cfg st).events = [] :=
        (runEventHandlers_facts cfg st).2.2.1
      rw [he, runStore_done cfg f₂ (runEventHandlers cfg st) hact hev]
      unfold drainedPlain
      rw [hbase]
  · have hane : st.actions.isEmpty = false := by simpa using hA
    set P := processActions cfg st.actions { st with actions := [] } with hPdef
    by_cases hE : P.events.isEmpty = true
    · have hE₂ : P.events = [] := by simpa [List.isEmpty_iff] using hE
      have he : runStore cfg (f₂ + 1 + 1) st = runStore cfg (f₂ + 1) P := by
        rw [runStore_succ_eq cfg (f₂ + 1) st (by simp [hane])]
        rw [if_neg (by simp [hane]), hP]
        dsimp only
        rw [if_pos hE]
      rw [he, runStore_done cfg f₂ P hPact hE₂]
      unfold drainedPlain
      rw [← hPdef]
      unfold runEventHandlers
      rw [hE₂,
        show runEventsFrom cfg ([] : List E) { P with events := [] } =
          { P with events := [] } from rfl,
        set_events_eq P [] hE₂]
    · have he : runStore cfg (f₂ + 1 + 1) st =
          runStore cfg (f₂ + 1) (runEventHandlers cfg P) := by
        rw [runStore_succ_eq cfg (f₂ + 1) st (by simp [hane])]
        rw [if_neg (by simp [hane]), hP]
        dsimp only
        rw [if_neg hE]
      have hact : (runEventHandlers cfg P).actions = [] := by
        rw [(runEventHandlers_facts cfg P).2.1, hPact]
      have hev : (runEventHandlers cfg P).events = [] :=
        (runEventHandlers_facts cfg P).2.2.1
      rw [he, runStore_done cfg f₂ (runEventHandlers cfg P) hact hev]
      unfold drainedPlain
      rw [← hPdef]

/-- A plain full drain leaves the action queue empty. -/
theorem drainedPlain_actions {S A E : Type} (cfg : Config S A E)
    (hred : ∀ (s : Option S) (a : A),
      ∃ r, cfg.reducer s a = .ok r ∧ r.extraActions = [])
    (st : StoreState S A E) :
    (drainedPlain cfg st).actions = [] := by
  unfold drainedPlain
  rw [(runEventHandlers_facts cfg _).2.1, processActions_actions cfg hred]


/-- The state, listeners and listener log of a plain full drain are those
of `processActions` over the queued actions. -/
theorem drainedPlain_obs {S A E : Type} (cfg : Config S A E)
    (st : StoreState S A E) (l : List A) (hl : st.actions = l) :
    (drainedPlain cfg st).state =
      (processActions cfg l { st with actions := [] }).state ∧
    (drainedPlain cfg st).listeners =
      (processActions cfg l { st with actions := [] }).listeners ∧
    (drainedPlain cfg st).listenerLog =
      (processActions cfg l { st with actions := [] }).listenerLog := by
  subst hl
  unfold drainedPlain
  exact ⟨(runEventHandlers_facts cfg _).1,
    (runEventHandlers_facts cfg _).2.2.2.1,
    (runEventHandlers_facts cfg _).2.2.2.2.2⟩

/-- Draining `l₁ ++ l₂` worth of enqueued actions at once agrees — on the
final state, the listeners and the listener log — with draining `l₁`,
then enqueueing and draining `l₂`. -/
theorem drained_seq_obs {S A E : Type} (cfg : Config S A E)
    (hred : ∀ (s : Option S) (a : A),
      ∃ r, cfg.reducer s a = .ok r ∧ r.extraActions = [])
    (st : StoreState S A E) (l₁ l₂ : List A) :
    (drainedPlain cfg { st with actions := st.actions ++ (l₁ ++ l₂) }).state =
      (drainedPlain cfg
        { drainedPlain cfg { st with actions := st.actions ++ l₁ } with
          actions :=
            (drainedPlain cfg { st with actions := st.actions ++ l₁ }).actions
              ++ l₂ }).state ∧
    (drainedPlain cfg { st with actions := st.actions ++ (l₁ ++ l₂) }).listenerLog =
      (drainedPlain cfg
        { drainedPlain cfg { st with actions := st.actions ++ l₁ } with
          actions :=
            (drainedPlain cfg { st with actions := st.actions ++ l₁ }).actions
              ++ l₂ }).listenerLog := by
  have h1 := drainedPlain_obs cfg { st with actions := st.actions ++ (l₁ ++ l₂) }
    (st.actions ++ (l₁ ++ l₂)) rfl
  have h2 := drainedPlain_obs cfg { st with actions := st.actions ++ l₁ }
    (st.actions ++ l₁) rfl
  have hD1act := drainedPlain_actions cfg hred { st with actions := st.actions ++ l₁ }
  have h3 := drainedPlain_obs cfg
    { drainedPlain cfg { st with actions := st.actions ++ l₁ } with
      actions :=
        (drainedPlain cfg { st with actions := st.actions ++ l₁ }).actions ++ l₂ }
    l₂ (by rw [hD1act]; simp)
  have hassoc : st.actions ++ (l₁ ++ l₂) = (st.actions ++ l₁) ++ l₂ :=
    (List.append_assoc st.actions l₁ l₂).symm
  have happ := processActions_append cfg hred (st.actions ++ l₁) l₂
    ({ { st with actions := st.actions ++ (l₁ ++ l₂) } with actions := [] })
  -- the two base stores of the first pass agree observably
  have hbase := processActions_congr cfg (st.actions ++ l₁)
    ({ { st with actions := st.actions ++ (l₁ ++ l₂) } with actions := [] })
    ({ { st with actions := st.actions ++ l₁ } with actions := [] })
    rfl rfl rfl
  -- the sequential second-pass base agrees observably with the first-pass result
  have hmid := processActions_congr cfg l₂
    (processActions cfg (st.actions ++ l₁)
      ({ { st with actions := st.actions ++ (l₁ ++ l₂) } with actions := [] }))
    ({ { drainedPlain cfg { st with actions := st.actions ++ l₁ } with
        actions :=
          (drainedPlain cfg { st with actions := st.actions ++ l₁ }).actions
            ++ l₂ } with actions := [] })
    (by
      rw [hbase.1]
      exact (h2.1).symm)
    (by
      rw [hbase.2.1]
      exact (h2.2.1).symm)
    (by
      rw [hbase.2.2]
      exact (h2.2.2).symm)
  constructor
  · rw [h1.1, h3.1, hassoc, happ]
    exact hmid.1
  · rw [h1.2.2, h3.2.2, hassoc, happ]
    exact hmid.2.2

/-- Dispatching a list of bare actions with a plain reducer: the filtered
actions are appended and the store fully drained. -/
theorem dispatchItems_actions_plain {S A E : Type} (cfg : Config S A E)
    (hred : ∀ (s : Option S) (a : A),
      ∃ r, cfg.reducer s a = .ok r ∧ r.extraActions = [])
    (l : List A) (fuel : Nat) (st : StoreState S A E)
    (hfl : st.actions.length + l.length + 2 ≤ fuel) :
    dispatchItems cfg fuel (l.map .action) st =
      .ok (drainedPlain cfg
        { st with actions :=
            st.actions ++ l.filterMap (applyMiddlewares cfg.actionMiddlewares) }) := by
  unfold dispatchItems
  rw [dispatchList_eq, enqueuedActions_map_action, enqueuedEvents_map_action]
  have hcollapse :
      ({ st with
          actions := st.actions ++ l.filterMap (applyMiddlewares cfg.actionMiddlewares)
          events := st.events ++ [] } : StoreState S A E) =
        { st with
          actions := st.actions ++ l.filterMap (applyMiddlewares cfg.actionMiddlewares) } := by
    simp
  rw [hcollapse]
  apply runStore_plain cfg hred
  have hlen := List.length_filterMap_le (applyMiddlewares cfg.actionMiddlewares) l
  simp only [List.length_append]
  omega

/-- C6 (amended): provided no reducer call fails or returns a composite
result carrying extra actions, dispatching `[a₁, a₂]` in one call is
observably equivalent to dispatching `a₁` and then `a₂` in two calls: the
listeners are invoked with the same sequence of states and the final state
is the same. -/
theorem dispatch_batch_eq_seq {S A E : Type} (cfg : Config S A E)
    (st : StoreState S A E) (a1 a2 : A) (fuel : Nat)
    (hred : ∀ (s : Option S) (a : A),
      ∃ r, cfg.reducer s a = .ok r ∧ r.extraActions = [])
    (hfuel : st.actions.length + 4 ≤ fuel) :
    ∃ st₁ st₂,
      dispatchItems cfg fuel [.action a1, .action a2] st = .ok st₁ ∧
      andThen (dispatchItems cfg fuel [.action a1] st)
        (dispatchItems cfg fuel [.action a2]) = .ok st₂ ∧
      st₁.state = st₂.state ∧ st₁.listenerLog = st₂.listenerLog := by
  have hB := dispatchItems_actions_plain cfg hred [a1, a2] fuel st (by
    simp only [List.length_cons, List.length_nil]
    omega)
  have hS1 := dispatchItems_actions_plain cfg hred [a1] fuel st (by
    simp only [List.length_cons, List.length_nil]
    omega)
  have hD1act := drainedPlain_actions cfg hred
    { st with actions :=
        st.actions ++ [a1].filterMap (applyMiddlewares cfg.actionMiddlewares) }
  have hS2 := dispatchItems_actions_plain cfg hred [a2] fuel
    (drainedPlain cfg
      { st with actions :=
          st.actions ++ [a1].filterMap (applyMiddlewares cfg.actionMiddlewares) })
    (by
      rw [hD1act]
      simp only [List.length_cons, List.length_nil]
      omega)
  simp only [List.map_cons, List.map_nil] at hB hS1 hS2
  have hsplit : [a1, a2].filterMap (applyMiddlewares cfg.actionMiddlewares) =
      [a1].filterMap (applyMiddlewares cfg.actionMiddlewares) ++
      [a2].filterMap (applyMiddlewares cfg.actionMiddlewares) := by
    rw [show [a1, a2] = [a1] ++ [a2] from rfl, List.filterMap_append]
  have hobs := drained_seq_obs cfg hred st
    ([a1].filterMap (applyMiddlewares cfg.actionMiddlewares))
    ([a2].filterMap (applyMiddlewares cfg.actionMiddlewares))
  refine ⟨drainedPlain cfg
      { st with actions :=
          st.actions ++ [a1, a2].filterMap (applyMiddlewares cfg.actionMiddlewares) },
    drainedPlain cfg
      { drainedPlain cfg
          { st with actions :=
              st.actions ++ [a1].filterMap (applyMiddlewares cfg.actionMiddlewares) } with
        actions :=
          (drainedPlain cfg
            { st with actions :=
                st.actions ++
                  [a1].filterMap (applyMiddlewares cfg.actionMiddlewares) }).actions
            ++ [a2].filterMap (applyMiddlewares cfg.actionMiddlewares) },
    hB, ?_, ?_, ?_⟩
  · rw [hS1]
    exact hS2
  · rw [hsplit]
    exact hobs.1
  · rw [hsplit]
    exact hobs.2

/-- Witness for C6 at the all-plain counter reducer. -/
theorem dispatch_batch_eq_seq_witness :
    ∃ st₁ st₂,
      dispatchItems cfgSimple 10 [.action (.inc 1), .action (.inc 2)] emptyStore =
        .ok st₁ ∧
      andThen (dispatchItems cfgSimple 10 [.action (.inc 1)] emptyStore)
        (dispatchItems cfgSimple 10 [.action (.inc 2)]) = .ok st₂ ∧
      st₁.state = st₂.state ∧ st₁.listenerLog = st₂.listenerLog :=
  dispatch_batch_eq_seq cfgSimple emptyStore (.inc 1) (.inc 2) 10
    (fun s a => by cases a <;> exact ⟨_, rfl, rfl⟩) (by decide)

/-- Counterexample to C6 as stated: with the composite `Tick` result
carrying the extra action `Dbl`, the batched dispatch of `[Tick, Inc 1]`
ends in state `4` while the sequential dispatch ends in state `3` — the
extra action is queued behind `Inc 1` in the batch but processed before it
sequentially. -/
theorem dispatch_batch_seq_cx :
    drainSnapshot (dispatchItems cfgTick 10 [.action .tick, .action (.inc 1)] stZero) =
      some (some 4) ∧
    drainSnapshot (andThen (dispatchItems cfgTick 10 [.action .tick] stZero)
      (dispatchItems cfgTick 10 [.action (.inc 1)])) = some (some 3) := by
  exact ⟨by decide, by decide⟩

end Redux
